import Mathlib

/-
Verification of the md2pdf-plantuml pipeline (src/md2pdf-plantuml.py).

Text is modelled as List Char.  The Python string primitives the script
relies on (str.strip, str.splitlines with keepends, str.startswith,
str.lower, str.replace with count 1) and its line-level regular
expressions are embedded as executable Lean functions, translated from
the CPython semantics the script runs under.  External effects
(filesystem checks, subprocess invocations) are modelled by explicit
oracle values recording the outcome of each invocation.
-/

/- Python str.isspace / default str.strip character class. -/
def pyIsSpace (c : Char) : Bool :=
  c == ' ' || c == '\t' || c == '\n' || c == '\r' || c == '\x0b' || c == '\x0c' ||
  c.toNat == 0x1c || c.toNat == 0x1d || c.toNat == 0x1e || c.toNat == 0x1f ||
  c.toNat == 0x85 || c.toNat == 0xa0 || c.toNat == 0x1680 ||
  c.toNat == 0x2000 || c.toNat == 0x2001 || c.toNat == 0x2002 || c.toNat == 0x2003 ||
  c.toNat == 0x2004 || c.toNat == 0x2005 || c.toNat == 0x2006 || c.toNat == 0x2007 ||
  c.toNat == 0x2008 || c.toNat == 0x2009 || c.toNat == 0x200a ||
  c.toNat == 0x2028 || c.toNat == 0x2029 || c.toNat == 0x202f ||
  c.toNat == 0x205f || c.toNat == 0x3000

/- Python str.strip() with no argument: drop whitespace from both ends. -/
def pyStrip (s : List Char) : List Char :=
  ((s.dropWhile pyIsSpace).reverse.dropWhile pyIsSpace).reverse

/- ASCII model of Python str.lower(); it agrees with CPython on every
character of the markers the script tests for. -/
def pyLower (c : Char) : Char := c.toLower

/- ensure_wrapped (lines 70-75): ensure the code has startuml/enduml
markers around it, testing by case-insensitive substring containment. -/
def ensure_wrapped (code : List Char) : List Char :=
  if "@startuml".data <:+: code.map pyLower ∧ "@enduml".data <:+: code.map pyLower then
    code
  else
    "@startuml\n".data ++ code ++ "\n@enduml".data

/- escape_unescaped_dollars (lines 77-82) embeds re.sub over the pattern:
a dollar sign with a negative lookbehind for a backslash, replaced by
backslash-dollar.  Matches are located in the original string, so the
lookbehind inspects the original previous character, threaded here as
prev. -/
def escDollarsAux : Option Char → List Char → List Char
  | _, [] => []
  | prev, c :: rest =>
    if c = '$' ∧ prev ≠ some '\\' then '\\' :: '$' :: escDollarsAux (some c) rest
    else c :: escDollarsAux (some c) rest

def escape_unescaped_dollars (s : List Char) : List Char := escDollarsAux none s

/- Position k of s holds a dollar sign that the lookbehind considers
unescaped, given that the character just before s (if any) is prev. -/
def unescFrom (prev : Option Char) (s : List Char) (k : ℕ) : Prop :=
  s[k]? = some '$' ∧ (match k with | 0 => prev | j+1 => s[j]?) ≠ some '\\'

/- Position k of s holds an unescaped dollar sign. -/
def unescapedDollarAt (s : List Char) (k : ℕ) : Prop := unescFrom none s k

instance (prev : Option Char) (s : List Char) (k : ℕ) : Decidable (unescFrom prev s k) := by
  unfold unescFrom; exact inferInstance

instance (s : List Char) (k : ℕ) : Decidable (unescapedDollarAt s k) := by
  unfold unescapedDollarAt; exact inferInstance

/- Python line-boundary characters recognised by str.splitlines. -/
def isLineBreak (c : Char) : Bool :=
  c == '\n' || c == '\r' || c == '\x0b' || c == '\x0c' || c.toNat == 0x1c ||
  c.toNat == 0x1d || c.toNat == 0x1e || c.toNat == 0x85 ||
  c.toNat == 0x2028 || c.toNat == 0x2029

/- Python str.splitlines(keepends=True): every line keeps its terminator,
and a carriage return immediately followed by a line feed counts as a
single terminator. -/
def splitlinesKE : List Char → List (List Char)
  | [] => []
  | c :: rest =>
    if isLineBreak c then
      match rest with
      | [] => [[c]]
      | c2 :: rest2 =>
        if c == '\r' && c2 == '\n' then [c, c2] :: splitlinesKE rest2
        else [c] :: splitlinesKE (c2 :: rest2)
    else
      match splitlinesKE rest with
      | [] => [[c]]
      | l :: ls => (c :: l) :: ls

/- The scan of lines[1:] in split_yaml_header (lines 97-101): find the
first line whose stripped content is a closing delimiter, returning the
lines before it, the closing line itself, and the lines after it. -/
def findClose : List (List Char) → Option (List (List Char) × List Char × List (List Char))
  | [] => none
  | l :: rest =>
    if pyStrip l = "---".data ∨ pyStrip l = "...".data then some ([], l, rest)
    else
      match findClose rest with
      | none => none
      | some (b, cl, a) => some (l :: b, cl, a)

/- split_yaml_header (lines 87-107): strip a leading BOM, test for an
opening delimiter line, and if a closing line is found return the
rebuilt header (note the hard-coded LF-terminated opening delimiter)
and the remaining lines joined as body; otherwise return an empty
header together with the ORIGINAL argument (BOM included). -/
def split_yaml_header (md_text : List Char) : List Char × List Char :=
  let text := md_text.dropWhile (fun c => c == '\uFEFF')
  if "---\n".data <+: text ∨ "---\r\n".data <+: text then
    match findClose ((splitlinesKE text).drop 1) with
    | some (header, closeLine, after) =>
      ("---\n".data ++ header.flatten ++ closeLine, after.flatten)
    | none => ([], md_text)
  else ([], md_text)

def spaceTab (c : Char) : Bool := c == ' ' || c == '\t'

/- Whether RE_PAGEBREAK_LINE (line 85) matches an entire line: optional
spaces/tabs, exactly three hyphens, optional spaces/tabs. -/
def pagebreakLine (l : List Char) : Bool :=
  "---".data.isPrefixOf (l.dropWhile spaceTab) &&
    ((l.dropWhile spaceTab).drop 3).all spaceTab

/- RE_PAGEBREAK_LINE.sub (line 115): the pattern is anchored by MULTILINE
caret and dollar (which in Python only recognise LF) and cannot contain a
line feed, so the substitution acts independently on each LF-separated
segment, replacing a fully matching segment by the processed replacement
template: LF, backslash, newpage, LF. -/
def splitNl : List Char → List (List Char)
  | [] => [[]]
  | c :: rest =>
    if c == '\n' then [] :: splitNl rest
    else
      match splitNl rest with
      | [] => [[c]]
      | l :: ls => (c :: l) :: ls

def joinNl : List (List Char) → List Char
  | [] => []
  | [l] => l
  | l :: ls => l ++ '\n' :: joinNl ls

def pagebreakSub (body : List Char) : List Char :=
  joinNl ((splitNl body).map
    (fun l => if pagebreakLine l then "\n\\newpage\n".data else l))

/- apply_page_breaks (lines 109-116). -/
def apply_page_breaks (md_text : List Char) : List Char :=
  (split_yaml_header md_text).1 ++ pagebreakSub (split_yaml_header md_text).2

/- Outcome of one pandoc invocation: its exit code and whether the
output PDF file exists on disk immediately afterwards. -/
structure PandocOutcome where
  returncode : Int
  pdfExists : Bool

/- The fixed candidate list of (mainfont, monofont) pairs (lines 124-134). -/
def font_pairs : List (String × String) :=
  [("Times New Roman", "Consolas"),
   ("Cambria", "Consolas"),
   ("Calibri", "Consolas"),
   ("Arial", "Consolas"),
   ("Times New Roman", "Lucida Console"),
   ("Times New Roman", "Courier New"),
   ("Times New Roman", "Noto Sans Mono"),
   ("Times New Roman", "DejaVu Sans Mono")]

/- The font-pair loop of run_pandoc_with_font_fallback (lines 140-171).
The oracle gives the outcome of the n-th subprocess.run invocation.  The
returned list records, in order, the font configuration of every
invocation performed: some pair for a font attempt, none for the final
defaults attempt. -/
def runPandocAttempts (oracle : ℕ → PandocOutcome) :
    ℕ → List (String × String) → Int × List (Option (String × String))
  | k, [] => ((oracle k).returncode, [none])
  | k, p :: rest =>
    if (oracle k).returncode = 0 ∧ (oracle k).pdfExists = true then
      (0, [some p])
    else
      ((runPandocAttempts oracle (k + 1) rest).1,
       some p :: (runPandocAttempts oracle (k + 1) rest).2)

/- run_pandoc_with_font_fallback (lines 119-171): fail with 127 when the
pandoc executable is not resolvable on PATH, otherwise run the font-pair
loop followed (on exhaustion) by one defaults attempt. -/
def run_pandoc_with_font_fallback (pandocOnPath : Bool) (oracle : ℕ → PandocOutcome) :
    Int × List (Option (String × String)) :=
  if pandocOnPath then runPandocAttempts oracle 0 font_pairs
  else (127, [])

/- Outcome of one PlantUML subprocess.run invocation. -/
structure RunResult where
  returncode : Int
  stdout : List Char
  stderr : List Char

/- The effectful steps process_uml performs, as oracle values: the
png_file.exists() check, puml_file.write_text (which may raise), and the
renderer invocation (which may raise).  An Except.error carries str(e)
for the raised exception. -/
structure UmlEnv where
  pngExists : Bool
  write : List Char → Except (List Char) Unit
  run : Except (List Char) RunResult

/- The configured output directory (line 12, a Windows path). -/
def output_dir : List Char := "F:\\MD-Proj\\diagrams".data

/- Windows pathlib join of a directory and a file name. -/
def pathJoin (d f : List Char) : List Char := d ++ "\\".data ++ f

def png_file (i : ℕ) : List Char :=
  pathJoin output_dir ("diagram".data ++ (Nat.repr i).data ++ ".png".data)

/- process_uml (lines 174-215): skip when the PNG already exists, else
write the wrapped source and invoke the renderer; exceptions anywhere in
the try block become a failure result carrying the exception message,
and a non-zero exit code a failure carrying the stripped stderr. -/
def process_uml (i : ℕ) (code_text : List Char) (env : UmlEnv) :
    ℕ × Bool × List Char :=
  if env.pngExists then (i, true, png_file i)
  else
    match env.write (ensure_wrapped code_text) with
    | Except.error e => (i, false, e)
    | Except.ok _ =>
      match env.run with
      | Except.error e => (i, false, e)
      | Except.ok r =>
        if r.returncode ≠ 0 then (i, false, pyStrip r.stderr)
        else (i, true, png_file i)

inductive BlockKind
  | fenced
  | startend

/- A record produced by find_uml_blocks (lines 33-68). -/
structure UmlBlock where
  span : ℕ × ℕ
  original : List Char
  code : List Char
  kind : BlockKind

/- pathlib Path.as_posix on a Windows path: separators become forward
slashes. -/
def as_posix (p : List Char) : List Char :=
  p.map (fun c => if c == '\\' then '/' else c)

/- Python str.replace(old, new, 1): replace the first occurrence of old
(an empty old matches at the front), leaving the string unchanged when
old does not occur. -/
def replace_first (old new : List Char) : List Char → List Char
  | [] => if old = [] then new else []
  | c :: rest =>
    if old <+: (c :: rest) then new ++ (c :: rest).drop old.length
    else c :: replace_first old new rest

/- The replacement string built in the main rewrite loop (lines 249-256):
an image reference with caption and width directive on success, a bolded
failure notice on failure. -/
def rewriteReplacement (i : ℕ) (success : Bool) (info : List Char) : List Char :=
  if success then
    "![Diagram ".data ++ (Nat.repr i).data ++ "](".data ++ as_posix info
      ++ ")\x7b width=100% \x7d".data
  else
    "**Diagram ".data ++ (Nat.repr i).data ++ " failed to generate: ".data
      ++ info ++ "**".data

/- The main rewrite loop (lines 249-259): zip results with blocks in
order and replace the first occurrence of each original block text. -/
def rewrite_blocks : List Char → List (ℕ × Bool × List Char) → List UmlBlock → List Char
  | md, (i, success, info) :: rs, b :: bs =>
    rewrite_blocks (replace_first b.original (rewriteReplacement i success info) md) rs bs
  | md, _, _ => md

/- ------------------------------------------------------------------ -/
/- Proofs.                                                            -/
/- ------------------------------------------------------------------ -/

lemma unescFrom_cons (prev : Option Char) (c : Char) (r : List Char) (k : ℕ) :
    unescFrom prev (c :: r) (k + 1) ↔ unescFrom (some c) r k := by
  cases k <;> simp [unescFrom]

lemma escDollarsAux_eq_self (s : List Char) :
    ∀ prev, (∀ k, ¬ unescFrom prev s k) → escDollarsAux prev s = s := by
  induction s with
  | nil => intro prev _; rfl
  | cons c r ih =>
    intro prev h
    have hc : ¬ (c = '$' ∧ prev ≠ some '\\') := by
      intro hh
      exact h 0 ⟨by simp [hh.1], hh.2⟩
    rw [escDollarsAux, if_neg hc]
    have hr : ∀ k, ¬ unescFrom (some c) r k := by
      intro k hk
      exact h (k + 1) ((unescFrom_cons prev c r k).mpr hk)
    rw [ih (some c) hr]

lemma escDollarsAux_one (s : List Char) :
    ∀ (prev : Option Char) (k : ℕ), unescFrom prev s k →
      (∀ j, j ≠ k → ¬ unescFrom prev s j) →
      escDollarsAux prev s = s.take k ++ '\\' :: s.drop k := by
  induction s with
  | nil =>
    intro prev k hk _
    exact absurd hk.1 (by simp)
  | cons c r ih =>
    intro prev k hk hothers
    cases k with
    | zero =>
      have hc : c = '$' := by
        have := hk.1
        simpa using this
      have hp : prev ≠ some '\\' := by
        have := hk.2
        simpa using this
      subst hc
      rw [escDollarsAux, if_pos ⟨rfl, hp⟩]
      have hr : ∀ j, ¬ unescFrom (some '$') r j := by
        intro j hj
        exact hothers (j + 1) (Nat.succ_ne_zero j)
          ((unescFrom_cons prev '$' r j).mpr hj)
      rw [escDollarsAux_eq_self r (some '$') hr]
      simp
    | succ k =>
      have hc : ¬ (c = '$' ∧ prev ≠ some '\\') := by
        intro hh
        exact hothers 0 (by omega) ⟨by simp [hh.1], hh.2⟩
      rw [escDollarsAux, if_neg hc]
      have hk' : unescFrom (some c) r k := (unescFrom_cons prev c r k).mp hk
      have hothers' : ∀ j, j ≠ k → ¬ unescFrom (some c) r j := by
        intro j hj hu
        exact hothers (j + 1) (by omega) ((unescFrom_cons prev c r j).mpr hu)
      rw [ih (some c) k hk' hothers']
      simp

/-- Claim C6: a string with no unescaped dollar sign is returned unchanged by
escape_unescaped_dollars, and a string with exactly one unescaped dollar sign
(at position k) gains exactly one escape character, inserted immediately
before that occurrence. -/
theorem escape_unescaped_dollars_spec :
    (∀ s : List Char, (∀ k, ¬ unescapedDollarAt s k) →
      escape_unescaped_dollars s = s) ∧
    (∀ (s : List Char) (k : ℕ), unescapedDollarAt s k →
      (∀ j, j ≠ k → ¬ unescapedDollarAt s j) →
      escape_unescaped_dollars s = s.take k ++ '\\' :: s.drop k) :=
  ⟨fun s h => escDollarsAux_eq_self s none h,
   fun s k h1 h2 => escDollarsAux_one s none k h1 h2⟩

/-- Claim C6 witness: concrete instances of both conjuncts. -/
theorem escape_unescaped_dollars_spec_witness :
    escape_unescaped_dollars "a\\$b".data = "a\\$b".data ∧
    escape_unescaped_dollars "a$b".data = "a\\$b".data := by
  constructor
  · apply escape_unescaped_dollars_spec.1
    intro k hu
    have h1 := hu.1
    have hlt : k < 4 := by
      by_contra hge
      have hn : ("a\\$b".data)[k]? = none := by
        apply List.getElem?_eq_none
        simp only [not_lt] at hge
        simpa using hge
      rw [hn] at h1
      exact Option.noConfusion h1
    interval_cases k <;> exact absurd hu (by decide)
  · have h := escape_unescaped_dollars_spec.2 "a$b".data 1 (by decide)
      (by
        intro j hj hu
        have h1 := hu.1
        have hlt : j < 3 := by
          by_contra hge
          have hn : ("a$b".data)[j]? = none := by
            apply List.getElem?_eq_none
            simp only [not_lt] at hge
            simpa using hge
          rw [hn] at h1
          exact Option.noConfusion h1
        interval_cases j
        · exact absurd hu (by decide)
        · exact hj rfl
        · exact absurd hu (by decide))
    exact h.trans (by decide)

/-- Claim C9: escape_unescaped_dollars is idempotent on every input string. -/
theorem escape_unescaped_dollars_idempotent (s : List Char) :
    escape_unescaped_dollars (escape_unescaped_dollars s)
      = escape_unescaped_dollars s := by
  suffices h : ∀ (t : List Char) (prev : Option Char),
      escDollarsAux prev (escDollarsAux prev t) = escDollarsAux prev t from
    h s none
  intro t
  induction t with
  | nil => intro prev; rfl
  | cons c r ih =>
    intro prev
    by_cases h : (c = '$' ∧ prev ≠ some '\\')
    · obtain ⟨hc, hp⟩ := h
      subst hc
      rw [escDollarsAux, if_pos ⟨rfl, hp⟩]
      have h1 : ¬ (('\\' : Char) = '$' ∧ prev ≠ some '\\') := by
        intro hh
        exact absurd hh.1 (by decide)
      have h2 : ¬ (('$' : Char) = '$' ∧ some '\\' ≠ some '\\') := by
        intro hh
        exact hh.2 rfl
      rw [escDollarsAux, if_neg h1, escDollarsAux, if_neg h2, ih (some '$')]
    · rw [escDollarsAux, if_neg h, escDollarsAux, if_neg h, ih (some c)]

lemma splitlinesKE_flatten : ∀ s : List Char, (splitlinesKE s).flatten = s := by
  intro s
  induction s using splitlinesKE.induct with
  | case1 => rfl
  | case2 c hbr =>
    simp [splitlinesKE, hbr]
  | case3 c hbr c2 rest2 hrn ih =>
    simp only [splitlinesKE, hbr, if_true, hrn]
    simpa using ih
  | case4 c hbr c2 rest2 hrn ih =>
    simp only [splitlinesKE, hbr, if_true, Bool.not_eq_true] at *
    simp only [hrn, if_false]
    simpa using ih
  | case5 c rest hbr hnil ih =>
    have hbr2 : isLineBreak c = false := by simpa using hbr
    rw [splitlinesKE.eq_def]
    simp only [hbr2, Bool.false_eq_true, if_false, hnil]
    rw [hnil] at ih
    simp at ih
    simp [ih]
  | case6 c rest hbr l ls hcons ih =>
    have hbr2 : isLineBreak c = false := by simpa using hbr
    rw [splitlinesKE.eq_def]
    simp only [hbr2, Bool.false_eq_true, if_false, hcons]
    rw [hcons] at ih
    simpa using ih

/-- Claim C8: ensure_wrapped is idempotent: applying it twice yields the same
result as applying it once. -/
theorem ensure_wrapped_idempotent (code : List Char) :
    ensure_wrapped (ensure_wrapped code) = ensure_wrapped code := by
  by_cases h : ("@startuml".data <:+: code.map pyLower ∧
      "@enduml".data <:+: code.map pyLower)
  · have h1 : ensure_wrapped code = code := by
      rw [ensure_wrapped, if_pos h]
    rw [h1]
    exact h1
  · have h1 : ensure_wrapped code
        = "@startuml\n".data ++ code ++ "\n@enduml".data := by
      rw [ensure_wrapped, if_neg h]
    rw [h1]
    have hmap : ("@startuml\n".data ++ code ++ "\n@enduml".data).map pyLower
        = "@startuml\n".data ++ code.map pyLower ++ "\n@enduml".data := by
      have e1 : "@startuml\n".data.map pyLower = "@startuml\n".data := by decide
      have e2 : "\n@enduml".data.map pyLower = "\n@enduml".data := by decide
      rw [List.map_append, List.map_append, e1, e2]
    have hs : "@startuml".data <:+:
        ("@startuml\n".data ++ code ++ "\n@enduml".data).map pyLower := by
      rw [hmap]
      have p1 : "@startuml".data <+: "@startuml\n".data := by decide
      have p2 : "@startuml\n".data <+:
          "@startuml\n".data ++ code.map pyLower ++ "\n@enduml".data := by
        rw [List.append_assoc]
        exact List.prefix_append _ _
      exact (p1.trans p2).isInfix
    have he : "@enduml".data <:+:
        ("@startuml\n".data ++ code ++ "\n@enduml".data).map pyLower := by
      rw [hmap]
      have s1 : "@enduml".data <:+ "\n@enduml".data := by decide
      have s2 : "\n@enduml".data <:+
          "@startuml\n".data ++ code.map pyLower ++ "\n@enduml".data :=
        List.suffix_append _ _
      exact (s1.trans s2).isInfix
    rw [ensure_wrapped, if_pos ⟨hs, he⟩]

lemma findClose_decomp :
    ∀ (ls b : List (List Char)) (cl : List Char) (a : List (List Char)),
      findClose ls = some (b, cl, a) → ls = b ++ cl :: a := by
  intro ls
  induction ls with
  | nil => intro b cl a h; exact Option.noConfusion h
  | cons l rest ih =>
    intro b cl a h
    rw [findClose] at h
    by_cases hc : (pyStrip l = "---".data ∨ pyStrip l = "...".data)
    · rw [if_pos hc] at h
      cases h
      simp
    · rw [if_neg hc] at h
      cases hfc : findClose rest with
      | none => rw [hfc] at h; exact Option.noConfusion h
      | some x =>
        obtain ⟨b2, cl2, a2⟩ := x
        rw [hfc] at h
        cases h
        simp only [List.cons_append, List.cons.injEq, true_and]
        exact ih b2 cl a hfc

lemma findClose_none (ls : List (List Char))
    (h : ∀ l ∈ ls, ¬ (pyStrip l = "---".data ∨ pyStrip l = "...".data)) :
    findClose ls = none := by
  induction ls with
  | nil => rfl
  | cons l rest ih =>
    rw [findClose, if_neg (h l (by simp))]
    rw [ih (fun x hx => h x (by simp [hx]))]

lemma dropWhile_bom (md : List Char)
    (h : "---\n".data <+: md ∨ "---\r\n".data <+: md) :
    md.dropWhile (fun c => c == '﻿') = md := by
  rcases h with ⟨t, ht⟩ | ⟨t, ht⟩ <;> rw [← ht] <;> rfl

lemma split_yaml_header_some (md : List Char) (b : List (List Char))
    (cl : List Char) (a : List (List Char))
    (hbom : md.dropWhile (fun c => c == '﻿') = md)
    (hopen : "---\n".data <+: md ∨ "---\r\n".data <+: md)
    (hfc : findClose ((splitlinesKE md).drop 1) = some (b, cl, a)) :
    split_yaml_header md = ("---\n".data ++ b.flatten ++ cl, a.flatten) := by
  simp only [split_yaml_header, hbom]
  rw [if_pos hopen, hfc]

lemma split_yaml_header_nofind (md : List Char)
    (hbom : md.dropWhile (fun c => c == '﻿') = md)
    (hfc : findClose ((splitlinesKE md).drop 1) = none) :
    split_yaml_header md = ([], md) := by
  simp only [split_yaml_header, hbom]
  by_cases hopen : ("---\n".data <+: md ∨ "---\r\n".data <+: md)
  · rw [if_pos hopen, hfc]
  · rw [if_neg hopen]

lemma splitlinesKE_nl_cons (rest : List Char) :
    splitlinesKE ('\n' :: rest) = ['\n'] :: splitlinesKE rest := by
  cases rest with
  | nil => rfl
  | cons c2 rest2 =>
    rw [splitlinesKE.eq_def]
    simp only [if_pos (by decide : isLineBreak '\n' = true)]
    have : (('\n' == '\r') && (c2 == '\n')) = false := by
      simp [show ('\n' == '\r') = false by decide]
    rw [this]
    simp

lemma splitlinesKE_cons_notbreak (c : Char) (h : isLineBreak c = false)
    (t l : List Char) (ls : List (List Char)) (ht : splitlinesKE t = l :: ls) :
    splitlinesKE (c :: t) = (c :: l) :: ls := by
  rw [splitlinesKE.eq_def]
  cases t with
  | nil => exact absurd ht (by simp [splitlinesKE])
  | cons c2 rest2 =>
    simp only [h, Bool.false_eq_true, if_false, ht]

lemma splitlinesKE_dash3 (rest : List Char) :
    splitlinesKE ("---\n".data ++ rest) = "---\n".data :: splitlinesKE rest := by
  have h0 : splitlinesKE ('\n' :: rest) = ['\n'] :: splitlinesKE rest :=
    splitlinesKE_nl_cons rest
  have hd : isLineBreak '-' = false := by decide
  have h1 := splitlinesKE_cons_notbreak '-' hd _ _ _ h0
  have h2 := splitlinesKE_cons_notbreak '-' hd _ _ _ h1
  have h3 := splitlinesKE_cons_notbreak '-' hd _ _ _ h2
  exact h3

lemma split_yaml_header_concat (md : List Char)
    (hopen : "---\n".data <+: md)
    (hdet : (split_yaml_header md).1 ≠ []) :
    (split_yaml_header md).1 ++ (split_yaml_header md).2 = md := by
  obtain ⟨t, ht⟩ := hopen
  have hbom : md.dropWhile (fun c => c == '﻿') = md :=
    dropWhile_bom md (Or.inl ⟨t, ht⟩)
  have hlines : (splitlinesKE md).drop 1 = splitlinesKE t := by
    rw [← ht, splitlinesKE_dash3]
    rfl
  cases hfc : findClose ((splitlinesKE md).drop 1) with
  | none =>
    rw [split_yaml_header_nofind md hbom hfc] at hdet
    exact absurd rfl hdet
  | some x =>
    obtain ⟨b, cl, a⟩ := x
    rw [split_yaml_header_some md b cl a hbom (Or.inl ⟨t, ht⟩) hfc]
    have hdec : splitlinesKE t = b ++ cl :: a := by
      rw [← hlines]
      exact findClose_decomp _ b cl a hfc
    have hfl : t = b.flatten ++ cl ++ a.flatten := by
      have := splitlinesKE_flatten t
      rw [hdec] at this
      simp at this
      simp [← this, List.append_assoc]
    rw [← ht, hfl]
    simp [List.append_assoc]

/-- Claim C1 (amended): when the document begins with the LF-terminated
opening delimiter line and split_yaml_header detects a header (returns a
non-empty header), concatenating the returned header and body reproduces
the original text exactly. -/
theorem split_yaml_header_roundtrip (md : List Char)
    (hopen : "---\n".data <+: md)
    (hdet : (split_yaml_header md).1 ≠ []) :
    (split_yaml_header md).1 ++ (split_yaml_header md).2 = md :=
  split_yaml_header_concat md hopen hdet

/-- Claim C1 witness: the round-trip at a concrete document. -/
theorem split_yaml_header_roundtrip_witness :
    (split_yaml_header "---\na: 1\n---\nbody".data).1
      ++ (split_yaml_header "---\na: 1\n---\nbody".data).2
      = "---\na: 1\n---\nbody".data :=
  split_yaml_header_roundtrip "---\na: 1\n---\nbody".data (by decide) (by decide)

/-- Claim C1 counterexample: a document that begins with the CRLF form of
the header delimiter line (accepted by the code) and has a closing line,
yet whose returned header and body do not concatenate to the input: the
code rebuilds the opening delimiter as LF-terminated. -/
theorem split_yaml_header_roundtrip_cex :
    (split_yaml_header "---\r\na: 1\n---\nbody".data).1 ≠ [] ∧
    (split_yaml_header "---\r\na: 1\n---\nbody".data).1
      ++ (split_yaml_header "---\r\na: 1\n---\nbody".data).2
      ≠ "---\r\na: 1\n---\nbody".data := by
  constructor
  · decide
  · decide

/-- Claim C10: for a document beginning with a header delimiter line
("---" terminated by LF or CRLF) in which no subsequent line strips to a
closing delimiter, split_yaml_header returns an empty header and the
original text as the body. -/
theorem split_yaml_header_no_close (md : List Char)
    (hopen : "---\n".data <+: md ∨ "---\r\n".data <+: md)
    (hno : ∀ l ∈ (splitlinesKE md).drop 1,
      ¬ (pyStrip l = "---".data ∨ pyStrip l = "...".data)) :
    split_yaml_header md = ([], md) := by
  have hbom := dropWhile_bom md hopen
  exact split_yaml_header_nofind md hbom (findClose_none _ hno)

/-- Claim C10 witness: a concrete unclosed header. -/
theorem split_yaml_header_no_close_witness :
    split_yaml_header "---\ntitle: x\nabc".data = ([], "---\ntitle: x\nabc".data) :=
  split_yaml_header_no_close "---\ntitle: x\nabc".data (by decide) (by decide)

lemma split_yaml_header_empty (md b : List Char)
    (h : split_yaml_header md = ([], b)) : b = md := by
  simp only [split_yaml_header] at h
  by_cases hopen : ("---\n".data <+: md.dropWhile (fun c => c == '﻿') ∨
      "---\r\n".data <+: md.dropWhile (fun c => c == '﻿'))
  · rw [if_pos hopen] at h
    cases hfc : findClose ((splitlinesKE (md.dropWhile (fun c => c == '﻿'))).drop 1) with
    | none =>
      rw [hfc] at h
      exact (Prod.mk.injEq .. ▸ h).2.symm
    | some x =>
      obtain ⟨b2, cl2, a2⟩ := x
      rw [hfc] at h
      have := (Prod.mk.injEq .. ▸ h).1
      exact absurd this (by simp)
  · rw [if_neg hopen] at h
    exact (Prod.mk.injEq .. ▸ h).2.symm

lemma splitNl_no_nl (l : List Char) (h : '\n' ∉ l) : splitNl l = [l] := by
  induction l with
  | nil => rfl
  | cons c r ih =>
    have hc : (c == '\n') = false := by
      simp only [beq_eq_false_iff_ne, ne_eq]
      intro he
      exact h (he ▸ List.mem_cons_self c r)
    have hr : '\n' ∉ r := fun hm => h (List.mem_cons_of_mem c hm)
    rw [splitNl, if_neg (by simp [hc]), ih hr]

lemma splitNl_append (l t : List Char) (h : '\n' ∉ l) :
    splitNl (l ++ '\n' :: t) = l :: splitNl t := by
  induction l with
  | nil =>
    rw [List.nil_append, splitNl, if_pos (by simp)]
  | cons c r ih =>
    have hc : (c == '\n') = false := by
      simp only [beq_eq_false_iff_ne, ne_eq]
      intro he
      exact h (he ▸ List.mem_cons_self c r)
    have hr : '\n' ∉ r := fun hm => h (List.mem_cons_of_mem c hm)
    rw [List.cons_append, splitNl, if_neg (by simp [hc]), ih hr]

lemma splitNl_joinNl (ls : List (List Char)) (hne : ls ≠ [])
    (h : ∀ l ∈ ls, '\n' ∉ l) : splitNl (joinNl ls) = ls := by
  induction ls with
  | nil => exact absurd rfl hne
  | cons l ls2 ih =>
    cases ls2 with
    | nil =>
      rw [joinNl]
      exact splitNl_no_nl l (h l (by simp))
    | cons l2 ls3 =>
      have hj : joinNl (l :: l2 :: ls3) = l ++ '\n' :: joinNl (l2 :: ls3) := rfl
      rw [hj, splitNl_append l (joinNl (l2 :: ls3)) (h l (by simp))]
      rw [ih (List.cons_ne_nil l2 ls3) (fun x hx => h x (List.mem_cons_of_mem l hx))]

lemma pagebreakSub_lines (ls : List (List Char)) (h : ∀ l ∈ ls, '\n' ∉ l) :
    pagebreakSub (joinNl ls)
      = joinNl (ls.map (fun l => if pagebreakLine l then "\n\\newpage\n".data else l)) := by
  cases ls with
  | nil => rfl
  | cons l ls2 =>
    rw [pagebreakSub, splitNl_joinNl (l :: ls2) (by simp) h]

lemma dropWhile_all_spaceTab (u w : List Char) (h : ∀ c ∈ u, spaceTab c = true) :
    List.dropWhile spaceTab (u ++ w) = List.dropWhile spaceTab w := by
  induction u with
  | nil => rfl
  | cons c r ih =>
    rw [List.cons_append, List.dropWhile_cons]
    rw [h c (by simp)]
    simp only [if_true]
    exact ih (fun x hx => h x (List.mem_cons_of_mem c hx))

lemma pagebreakLine_iff (l : List Char) :
    pagebreakLine l = true ↔
      ∃ u v, (∀ c ∈ u, c = ' ' ∨ c = '\t') ∧ (∀ c ∈ v, c = ' ' ∨ c = '\t') ∧
        l = u ++ "---".data ++ v := by
  constructor
  · intro hm
    rw [pagebreakLine, Bool.and_eq_true] at hm
    obtain ⟨h1, h2⟩ := hm
    rw [List.isPrefixOf_iff_prefix] at h1
    obtain ⟨v, hv⟩ := h1
    refine ⟨l.takeWhile spaceTab, v, ?_, ?_, ?_⟩
    · intro c hc
      have := List.mem_takeWhile_imp hc
      simpa [spaceTab] using this
    · intro c hc
      have hdrop : (l.dropWhile spaceTab).drop 3 = v := by
        rw [← hv]
        exact List.drop_left' (by decide)
      rw [← hdrop] at hc
      have := (List.all_eq_true.mp h2) c hc
      simpa [spaceTab] using this
    · rw [List.append_assoc, hv, List.takeWhile_append_dropWhile]
  · rintro ⟨u, v, hu, hv, rfl⟩
    have hu2 : ∀ c ∈ u, spaceTab c = true := by
      intro c hc
      rcases hu c hc with h | h <;> simp [spaceTab, h]
    have hdw : List.dropWhile spaceTab (u ++ "---".data ++ v) = "---".data ++ v := by
      rw [List.append_assoc, dropWhile_all_spaceTab u _ hu2]
      rfl
    rw [pagebreakLine, hdw, Bool.and_eq_true]
    constructor
    · rw [List.isPrefixOf_iff_prefix]
      exact List.prefix_append _ _
    · rw [List.drop_left' (by decide : ("---".data).length = 3)]
      rw [List.all_eq_true]
      intro c hc
      rcases hv c hc with h | h <;> simp [spaceTab, h]

/-- Claim C5 (amended): apply_page_breaks applies the page-break
substitution only to the body component returned by the header splitter,
converting exactly the body lines made of optional spaces/tabs around
exactly three hyphens into the page-break directive; the header followed
by the body reconstructs the document, so the header region (which may
contain a bare three-dash line, e.g. its closing delimiter) is excluded
from the substitution.  The reconstruction is verbatim whenever the
header is absent or the opening delimiter is the LF-terminated "---\n";
a CRLF-terminated opening delimiter is normalised to "---\n" and a
leading BOM dropped by the header splitter itself. -/
theorem apply_page_breaks_spec (md h b : List Char)
    (hsplit : split_yaml_header md = (h, b))
    (hok : h = [] ∨ "---\n".data <+: md) :
    (h ++ b = md) ∧
    (∀ ls : List (List Char), (∀ l ∈ ls, '\n' ∉ l) → b = joinNl ls →
      apply_page_breaks md
        = h ++ joinNl (ls.map (fun l => if pagebreakLine l then "\n\\newpage\n".data else l))) ∧
    (∀ l : List Char, pagebreakLine l = true ↔
      ∃ u v, (∀ c ∈ u, c = ' ' ∨ c = '\t') ∧ (∀ c ∈ v, c = ' ' ∨ c = '\t') ∧
        l = u ++ "---".data ++ v) := by
  refine ⟨?_, ?_, pagebreakLine_iff⟩
  · by_cases hnil : h = []
    · subst hnil
      rw [split_yaml_header_empty md b hsplit]
      rfl
    · rcases hok with h1 | hopen
      · exact absurd h1 hnil
      · have := split_yaml_header_concat md hopen (by rw [hsplit]; exact hnil)
        rw [hsplit] at this
        exact this
  · intro ls hnl hb
    rw [apply_page_breaks, hsplit]
    rw [hb, pagebreakSub_lines ls hnl]

/-- Claim C5 witness: a document whose header region contains three-dash
lines (both delimiters) and whose body contains one page-break line. -/
theorem apply_page_breaks_spec_witness :
    apply_page_breaks "---\nt: v\n---\nA\n---\nB".data
      = "---\nt: v\n---\nA\n\n\\newpage\n\nB".data := by
  have h := (apply_page_breaks_spec "---\nt: v\n---\nA\n---\nB".data
      "---\nt: v\n---\n".data "A\n---\nB".data (by decide) (Or.inr (by decide))).2.1
      ["A".data, "---".data, "B".data] (by decide) (by decide)
  exact h.trans (by decide)

/-- Claim C5 counterexample: with a CRLF-terminated opening delimiter, the
leading header region of the input ("---\r\nx\n---\n") is altered by
apply_page_breaks (the splitter rebuilds the opening delimiter as
"---\n"), so the output does not retain the original header region. -/
theorem apply_page_breaks_header_cex :
    apply_page_breaks "---\r\nx\n---\ny".data = "---\nx\n---\ny".data ∧
    ¬ ("---\r\nx\n---\n".data <+: apply_page_breaks "---\r\nx\n---\ny".data) := by
  constructor
  · decide
  · decide

/- An invocation outcome counts as success when it both exits with code
zero and leaves the output PDF present (line 155). -/
def pandocSuccess (o : PandocOutcome) : Prop :=
  o.returncode = 0 ∧ o.pdfExists = true

instance (o : PandocOutcome) : Decidable (pandocSuccess o) := by
  unfold pandocSuccess; exact inferInstance

lemma runPandocAttempts_all_fail (oracle : ℕ → PandocOutcome) :
    ∀ (ps : List (String × String)) (k : ℕ),
      (∀ i, i < ps.length → ¬ pandocSuccess (oracle (k + i))) →
      runPandocAttempts oracle k ps
        = ((oracle (k + ps.length)).returncode, ps.map some ++ [none]) := by
  intro ps
  induction ps with
  | nil =>
    intro k _
    simp [runPandocAttempts]
  | cons p rest ih =>
    intro k h
    have h0 : ¬ ((oracle k).returncode = 0 ∧ (oracle k).pdfExists = true) := by
      have := h 0 (by simp)
      simpa [pandocSuccess] using this
    rw [runPandocAttempts, if_neg h0]
    have hrest : ∀ i, i < rest.length → ¬ pandocSuccess (oracle (k + 1 + i)) := by
      intro i hi
      have := h (i + 1) (by simpa using Nat.succ_lt_succ hi)
      have he : k + (i + 1) = k + 1 + i := by omega
      rwa [he] at this
    rw [ih (k + 1) hrest]
    have he2 : k + 1 + rest.length = k + (p :: rest).length := by
      simp
      omega
    rw [he2]
    simp

lemma runPandocAttempts_first_success (oracle : ℕ → PandocOutcome) :
    ∀ (ps : List (String × String)) (k i : ℕ), i < ps.length →
      pandocSuccess (oracle (k + i)) →
      (∀ j, j < i → ¬ pandocSuccess (oracle (k + j))) →
      runPandocAttempts oracle k ps = (0, (ps.take (i + 1)).map some) := by
  intro ps
  induction ps with
  | nil =>
    intro k i hi
    exact absurd hi (by simp)
  | cons p rest ih =>
    intro k i hi hs hprev
    cases i with
    | zero =>
      have hs0 : (oracle k).returncode = 0 ∧ (oracle k).pdfExists = true := by
        simpa [pandocSuccess] using hs
      rw [runPandocAttempts, if_pos hs0]
      simp
    | succ i =>
      have h0 : ¬ ((oracle k).returncode = 0 ∧ (oracle k).pdfExists = true) := by
        have := hprev 0 (by omega)
        simpa [pandocSuccess] using this
      rw [runPandocAttempts, if_neg h0]
      have hs' : pandocSuccess (oracle (k + 1 + i)) := by
        have he : k + (i + 1) = k + 1 + i := by omega
        rwa [he] at hs
      have hprev' : ∀ j, j < i → ¬ pandocSuccess (oracle (k + 1 + j)) := by
        intro j hj
        have := hprev (j + 1) (by omega)
        have he : k + (j + 1) = k + 1 + j := by omega
        rwa [he] at this
      rw [ih (k + 1) i (by simpa using Nat.lt_of_succ_lt_succ hi) hs' hprev']
      simp

/-- Claim C2: with the executable resolvable, run_pandoc_with_font_fallback
iterates the fixed ordered font-pair list: it stops and returns 0 at the
first invocation that both exits zero and leaves the PDF on disk, having
invoked exactly the pairs up to that one; if all pairs fail, it performs
exactly one final invocation with no font overrides (recorded as none after
all eight pairs) and returns that invocation's exit status regardless of
whether the output file exists. -/
theorem run_pandoc_with_font_fallback_spec (oracle : ℕ → PandocOutcome) :
    ((∀ i, i < font_pairs.length → ¬ pandocSuccess (oracle i)) →
      run_pandoc_with_font_fallback true oracle
        = ((oracle font_pairs.length).returncode, font_pairs.map some ++ [none])) ∧
    (∀ i, i < font_pairs.length → pandocSuccess (oracle i) →
      (∀ j, j < i → ¬ pandocSuccess (oracle j)) →
      run_pandoc_with_font_fallback true oracle
        = (0, (font_pairs.take (i + 1)).map some)) := by
  constructor
  · intro h
    rw [run_pandoc_with_font_fallback, if_pos rfl]
    have := runPandocAttempts_all_fail oracle font_pairs 0
      (by intro i hi; simpa using h i hi)
    simpa using this
  · intro i hi hs hprev
    rw [run_pandoc_with_font_fallback, if_pos rfl]
    have := runPandocAttempts_first_success oracle font_pairs 0 i hi
      (by simpa using hs) (by intro j hj; simpa using hprev j hj)
    simpa using this

/-- Claim C2 witness: with an oracle on which every invocation fails, the
driver runs all eight pairs plus the final defaults attempt, returning the
final exit status; with an oracle succeeding first at invocation 2, it
stops there with status 0. -/
theorem run_pandoc_with_font_fallback_spec_witness :
    run_pandoc_with_font_fallback true (fun _ => ⟨1, false⟩)
      = (1, font_pairs.map some ++ [none]) ∧
    run_pandoc_with_font_fallback true
        (fun k => if k = 2 then ⟨0, true⟩ else ⟨1, false⟩)
      = (0, (font_pairs.take 3).map some) := by
  constructor
  · exact (run_pandoc_with_font_fallback_spec (fun _ => ⟨1, false⟩)).1
      (by intro i _ hs; exact absurd hs.1 (by decide))
  · exact (run_pandoc_with_font_fallback_spec
      (fun k => if k = 2 then ⟨0, true⟩ else ⟨1, false⟩)).2 2 (by decide)
      (by constructor <;> decide)
      (by
        intro j hj hs
        interval_cases j <;> exact absurd hs.1 (by decide))

/-- Claim C7: when the converter executable is not resolvable on PATH, the
driver returns the distinct non-zero status 127 at once, invoking the
converter for no font pair at all (the attempt list is empty), whatever the
outcomes of would-be invocations. -/
theorem run_pandoc_with_font_fallback_not_found (oracle : ℕ → PandocOutcome) :
    run_pandoc_with_font_fallback false oracle = (127, []) ∧ (127 : Int) ≠ 0 := by
  constructor
  · rw [run_pandoc_with_font_fallback]
    simp
  · decide

/-- Claim C3: process_uml always returns a triple whose ordinal is the input
ordinal (exceptions of the modelled effects are absorbed, never propagated):
when the target PNG already exists it reports success with the output path
for every renderer behaviour, hence without depending on any invocation;
otherwise success with the output path exactly when the renderer exits zero,
failure with the stripped captured stderr on a non-zero exit, and failure
with the exception message when an invocation raises. -/
theorem process_uml_spec (i : ℕ) (code : List Char) (env : UmlEnv) :
    ((process_uml i code env).1 = i) ∧
    (env.pngExists = true → process_uml i code env = (i, true, png_file i)) ∧
    (env.pngExists = false → env.write (ensure_wrapped code) = Except.ok () →
      (∀ r, env.run = Except.ok r →
        (r.returncode = 0 → process_uml i code env = (i, true, png_file i)) ∧
        (r.returncode ≠ 0 → process_uml i code env = (i, false, pyStrip r.stderr))) ∧
      (∀ e, env.run = Except.error e → process_uml i code env = (i, false, e))) := by
  refine ⟨?_, ?_, ?_⟩
  · rw [process_uml]
    split
    · rfl
    · split
      · rfl
      · split
        · rfl
        · split
          · rfl
          · rfl
  · intro hp
    rw [process_uml, if_pos hp]
  · intro hp hw
    constructor
    · intro r hr
      constructor
      · intro hrc
        simp only [process_uml, hp, Bool.false_eq_true, if_false, hw, hr]
        simp [hrc]
      · intro hrc
        simp only [process_uml, hp, Bool.false_eq_true, if_false, hw, hr]
        simp [hrc]
    · intro e he
      simp only [process_uml, hp, Bool.false_eq_true, if_false, hw, he]

/-- Claim C3 witness: a renderer invocation with exit code 2 and captured
stderr yields a failure result carrying the stripped stderr text. -/
theorem process_uml_spec_witness :
    process_uml 4 "x -> y".data
      ⟨false, fun _ => Except.ok (), Except.ok ⟨2, [], " boom\n".data⟩⟩
      = (4, false, "boom".data) := by
  have h := ((process_uml_spec 4 "x -> y".data
      ⟨false, fun _ => Except.ok (), Except.ok ⟨2, [], " boom\n".data⟩⟩).2.2 rfl rfl).1
      ⟨2, [], " boom\n".data⟩ rfl
  exact (h.2 (by decide)).trans (by decide)

lemma replace_first_first_occurrence
    (old new pre post : List Char) (hne : old ≠ [])
    (hfirst : ∀ k, k < pre.length → ¬ (old <+: (pre ++ old ++ post).drop k)) :
    replace_first old new (pre ++ old ++ post) = pre ++ new ++ post := by
  induction pre with
  | nil =>
    simp only [List.nil_append]
    cases hol : old with
    | nil => exact absurd hol hne
    | cons c r =>
      subst hol
      rw [List.cons_append, replace_first]
      have hpre : (c :: r) <+: (c :: (r ++ post)) := by
        rw [← List.cons_append]
        exact List.prefix_append _ _
      rw [if_pos hpre, ← List.cons_append, List.drop_left]
  | cons c pre2 ih =>
    have hnp : ¬ (old <+: (c :: (pre2 ++ old ++ post))) := by
      have := hfirst 0 (by simp)
      simpa using this
    rw [List.cons_append, List.cons_append, replace_first, if_neg hnp]
    have hfirst2 : ∀ k, k < pre2.length → ¬ (old <+: (pre2 ++ old ++ post).drop k) := by
      intro k hk
      have := hfirst (k + 1) (by simpa using Nat.succ_lt_succ hk)
      simpa using this
    rw [ih hfirst2]
    simp

/-- Claim C4: the rewrite loop walks results and blocks in original order,
zip-style, replacing at each step the first remaining occurrence of the
block's exact original text by the built replacement string; the
replacement is an image-embed reference over the forward-slash output path
captioned with the ordinal and a fixed width directive on success, and a
bolded failure notice embedding the error text on failure; and
replace_first indeed replaces exactly the first occurrence. -/
theorem rewrite_blocks_spec :
    (∀ (md : List Char) (i : ℕ) (success : Bool) (info : List Char)
       (rs : List (ℕ × Bool × List Char)) (b : UmlBlock) (bs : List UmlBlock),
      rewrite_blocks md ((i, success, info) :: rs) (b :: bs)
        = rewrite_blocks (replace_first b.original (rewriteReplacement i success info) md) rs bs) ∧
    (∀ (i : ℕ) (info : List Char),
      rewriteReplacement i true info
        = "![Diagram ".data ++ (Nat.repr i).data ++ "](".data ++ as_posix info
            ++ ")\x7b width=100% \x7d".data) ∧
    (∀ (i : ℕ) (info : List Char),
      rewriteReplacement i false info
        = "**Diagram ".data ++ (Nat.repr i).data ++ " failed to generate: ".data
            ++ info ++ "**".data) ∧
    (∀ old new pre post : List Char, old ≠ [] →
      (∀ k, k < pre.length → ¬ (old <+: (pre ++ old ++ post).drop k)) →
      replace_first old new (pre ++ old ++ post) = pre ++ new ++ post) :=
  ⟨fun _ _ _ _ _ _ _ => rfl,
   fun _ _ => rfl,
   fun _ _ => rfl,
   fun old new pre post hne hfirst =>
     replace_first_first_occurrence old new pre post hne hfirst⟩

/-- Claim C4 witness: replace_first at a concrete document with a later
duplicate of the block text replaces only the earliest occurrence. -/
theorem rewrite_blocks_spec_witness :
    replace_first "ab".data "XY".data ("z ".data ++ "ab".data ++ " ab".data)
      = "z ".data ++ "XY".data ++ " ab".data :=
  rewrite_blocks_spec.2.2.2 "ab".data "XY".data "z ".data " ab".data (by decide)
    (by decide)
